import Mathlib

/-!
Verification of the PyMine-Net protocol codec layer.

This file gives a shallow embedding, in Lean 4, of the byte-level codec of
the PyMine-Net repository (a Minecraft Java-Edition network protocol
library written in Python), and proves or refutes the frozen claims about
it.

Conventions of the embedding:
* A byte is a `Nat` in `[0, 256)`; byte strings are `List Nat`.
* Python's arbitrary-precision `int` is `Int` (or `Nat` when the source
  value is known non-negative, e.g. after the `value += 1 << 32` step).
* A Python method that can raise becomes a function into `Option`
  (`none` = an exception was raised); the specific exception class is
  noted in comments.
* Cursor-based reads on `Buffer` (`self.pos` advancing over the
  underlying bytearray) are embedded in two equivalent ways: a
  positional `Buffer` structure (`data`, `pos`) mirroring the class for
  the buffer-invariant claims, and front-consumption on the remaining
  byte list (a reader returns the parsed value together with the list of
  bytes it did not consume) for the codec claims.
* The external libraries `zlib`, `gzip` and `mutf8` are not part of the
  repository; they are modelled by their contracts (structures packaging
  a compress/decompress or encode/decode pair), and concrete instances
  of those structures witness the theorems.
-/

namespace PyMineNet

/-! ### Varint codec, from `pymine_net/types/buffer.py`

`Buffer.write_varint` (lines 131-154): range-check the value against
`[-2^(max_bits-1), 2^(max_bits-1)-1]` (raising `ValueError` otherwise),
add `1 << 32` to negative values, then emit up to ten 7-bit groups,
little-endian, setting bit 7 of a group when more groups follow.

`Buffer.read_varint` (lines 106-129): read up to ten bytes, accumulating
`(byte & 0x7F) << 7*i` with `|=`, stopping at the first byte without
bit 7; subtract `1 << 32` if bit 31 of the accumulated value is set;
range-check the result (raising `ValueError` otherwise).  A truncated
input fails inside `self.read("B")` (struct.error).
-/

/-- The loop body of `write_varint` after the sign adjustment: `value`
is a non-negative Python int, each iteration emits `value & 0x7F`
(`value % 128`), shifts `value` right by 7, and sets the continuation
bit `0x80` iff the shifted value is still positive.  `fuel` is the
`range(10)` bound. -/
def writeVarintLoop : Nat → Nat → List Nat
  | 0, _ => []
  | fuel + 1, value =>
    if value / 128 = 0 then [value % 128]
    else (value % 128 + 128) :: writeVarintLoop fuel (value / 128)

/-- The loop of `read_varint`: read one byte per iteration (`none` on a
truncated input, mirroring the struct.error raised by `self.read("B")`),
or `(byte & 0x7F) << shift` into the accumulator, and stop at the first
byte without the continuation bit.  When the ten iterations of
`range(10)` are exhausted the Python loop simply falls through with the
accumulated value, which the `fuel = 0` case mirrors. -/
def readVarintLoop : Nat → List Nat → Nat → Nat → Option (Nat × List Nat)
  | 0, bytes, _, acc => some (acc, bytes)
  | _ + 1, [], _, _ => none
  | fuel + 1, b :: rest, shift, acc =>
    if b < 128 then some (acc ||| ((b % 128) <<< shift), rest)
    else readVarintLoop fuel rest (shift + 7) (acc ||| ((b % 128) <<< shift))

/-- `Buffer.write_varint(value, max_bits=32)`: `none` is the
`ValueError` raised when the value is outside `[-2^31, 2^31 - 1]`. -/
def writeVarint (value : Int) : Option (List Nat) :=
  if -(2 ^ 31) ≤ value ∧ value ≤ 2 ^ 31 - 1 then
    some (writeVarintLoop 10 (if value < 0 then (value + 2 ^ 32).toNat else value.toNat))
  else
    none

/-- `Buffer.read_varint(max_bits=32)` on the remaining bytes of the
buffer; returns the decoded value and the unconsumed bytes.  `none`
covers both failure modes of the source: struct.error on a truncated
input and the `ValueError` of the final range check. -/
def readVarint (bytes : List Nat) : Option (Int × List Nat) :=
  match readVarintLoop 10 bytes 0 0 with
  | none => none
  | some (value, rest) =>
    let signed : Int := if value &&& (1 <<< 31) ≠ 0 then (value : Int) - 2 ^ 32 else (value : Int)
    if -(2 ^ 31) ≤ signed ∧ signed ≤ 2 ^ 31 - 1 then some (signed, rest) else none

/-! ### Position codec, from `pymine_net/types/buffer.py`

`Buffer.write_position` (lines 246-257) packs `(x, y, z)` into one
big-endian u64 via `struct.pack(">Q", ...)`.  The Python expression is

    to_twos_complement(x, 26) << 38 + to_twos_complement(z, 26)
                              << 12 + to_twos_complement(y, 12)

and since `+` binds tighter than `<<` in Python this parses as

    (x26 << (38 + z26)) << (12 + y12)

not as the packing `(x26 << 38) | (z26 << 12) | y12` that
`read_position` (lines 219-234) expects.  The embedding reproduces the
expression exactly as it parses.  `struct.pack(">Q", v)` raises
struct.error unless `0 ≤ v < 2^64`.
-/

/-- `to_twos_complement(num, bits)` from `write_position`. -/
def to_twos_complement (num : Int) (bits : Nat) : Int :=
  if num < 0 then num + 2 ^ bits else num

/-- `from_twos_complement(num, bits)` from `read_position`; `num` is a
non-negative field extracted from the u64. -/
def from_twos_complement (num : Nat) (bits : Nat) : Int :=
  if num &&& (1 <<< (bits - 1)) ≠ 0 then (num : Int) - 2 ^ bits else (num : Int)

/-- Big-endian bytes of width `w` for a value `v < 2^(8*w)`. -/
def natToBytesBE (w : Nat) (v : Nat) : List Nat :=
  (List.range w).map (fun i => v / 2 ^ (8 * (w - 1 - i)) % 256)

/-- Big-endian byte list to `Nat`. -/
def bytesToNatBE (bs : List Nat) : Nat :=
  bs.foldl (fun acc b => acc * 256 + b) 0

/-- `Buffer.write_position(x, y, z)`: the Python shift expression with
its actual precedence, then `struct.pack(">Q", packed)` (`none` on a
negative shift count, which raises `ValueError`, or a value outside
`[0, 2^64)`, which raises struct.error). -/
def write_position (x y z : Int) : Option (List Nat) :=
  let x26 := to_twos_complement x 26
  let z26 := to_twos_complement z 26
  let y12 := to_twos_complement y 12
  if 0 ≤ x26 ∧ 0 ≤ 38 + z26 ∧ 0 ≤ 12 + y12 then
    let packed : Int := x26 * 2 ^ (38 + z26).toNat * 2 ^ (12 + y12).toNat
    if 0 ≤ packed ∧ packed < 2 ^ 64 then some (natToBytesBE 8 packed.toNat) else none
  else
    none

/-- `Buffer.read_position()` on the remaining bytes: read 8 bytes as a
big-endian u64 (`none` if fewer than 8 remain, struct.error in the
source) and split the fields `(data >> 38, data & 0xFFF,
data >> 12 & 0x3FFFFFF)` through `from_twos_complement`. -/
def read_position (bs : List Nat) : Option ((Int × Int × Int) × List Nat) :=
  if bs.length < 8 then none
  else
    let data := bytesToNatBE (bs.take 8)
    some ((from_twos_complement (data >>> 38) 26,
           from_twos_complement (data &&& 0xFFF) 12,
           from_twos_complement (data >>> 12 &&& 0x3FFFFFF) 26),
          bs.drop 8)

/-! ### The `Buffer` container, from `pymine_net/types/buffer.py`

`Buffer` is a bytearray subclass with a read cursor `pos` (initially
0).  For the buffer-invariant claims we model the container
positionally.  `read_bytes` (lines 35-44) slices
`self[self.pos : self.pos + length]` — Python slicing CLAMPS to the end
of the container — and then unconditionally runs `self.pos += length`
in a `finally:` block.  `read_byte` (lines 61-66) indexes `self[self.pos]`,
raising IndexError past the end.  `read` (lines 73-81) struct-unpacks
`read_bytes(calcsize(fmt))`, and struct.unpack raises struct.error when
given fewer bytes than the format needs.  `clear` (lines 46-50) empties
the bytearray and zeroes `pos`; `reset` (lines 52-55) only zeroes `pos`.
-/

/-- The `Buffer` state: the underlying bytearray and the cursor. -/
structure Buffer where
  data : List Nat
  pos : Nat
deriving DecidableEq, Repr

/-- `Buffer.read_bytes(length)`: the (possibly clamped) slice
`self[pos : pos + length]` together with the buffer after
`self.pos += length`.  Never fails. -/
def Buffer.read_bytes (b : Buffer) (length : Nat) : List Nat × Buffer :=
  ((b.data.drop b.pos).take length, ⟨b.data, b.pos + length⟩)

/-- `Buffer.read_bytes()` with `length=None`: `length` defaults to
`len(self)` (the whole container, not the remaining part). -/
def Buffer.read_bytes_all (b : Buffer) : List Nat × Buffer :=
  b.read_bytes b.data.length

/-- `Buffer.read_byte()`: `self[self.pos]` (IndexError past the end —
`pos` is always `≥ 0` here so Python's negative indexing never fires),
then `self.pos += 1`. -/
def Buffer.read_byte (b : Buffer) : Option (Nat × Buffer) :=
  match b.data.get? b.pos with
  | none => none
  | some v => some (v, ⟨b.data, b.pos + 1⟩)

/-- The byte-fetching part of `Buffer.read(fmt)`:
`struct.unpack(">"+fmt, self.read_bytes(struct.calcsize(fmt)))` raises
struct.error unless the slice has exactly `calcsize(fmt)` bytes, so a
fixed-width read past the end fails. -/
def Buffer.read_exact (b : Buffer) (size : Nat) : Option (List Nat × Buffer) :=
  let r := b.read_bytes size
  if r.1.length = size then some r else none

/-- `Buffer.clear()`: empties the bytearray and zeroes the cursor. -/
def Buffer.clear (_ : Buffer) : Buffer := ⟨[], 0⟩

/-- `Buffer.reset()`: zeroes the cursor, keeping the contents. -/
def Buffer.reset (b : Buffer) : Buffer := ⟨b.data, 0⟩

/-- `Buffer.write_bytes(data)` / `extend`: append to the container. -/
def Buffer.write_bytes (b : Buffer) (bs : List Nat) : Buffer :=
  ⟨b.data ++ bs, b.pos⟩

/-! ### Framing and compression, from `pymine_net/types/packet_map.py`

`PacketMap.encode_packet` (lines 83-94; textually identical in
`AbstractProtocolServerClient._encode_packet` and
`AbstractProtocolClient._encode_packet`):

    buf = Buffer().write_varint(packet.id).extend(packet.pack())
    if compression_threshold >= 1:
        if len(buf) >= compression_threshold:
            buf = Buffer().write_varint(len(buf)).extend(zlib.compress(buf))
        else:
            buf = Buffer().write_varint(0).extend(buf)
    return Buffer().write_varint(len(buf)).extend(buf)

`PacketMap.decode_packet` (lines 96-114) receives the frame body (its
callers strip the outer length varint from the stream first):

    if compression_threshold >= 0:
        uncompressed_length = buf.read_varint()
        if uncompressed_length > 0:
            buf = Buffer(zlib.decompress(buf.read_bytes()))
    packet_id = buf.read_varint()
    packet_class = self.packets[state].server_bound[packet_id]   # KeyError -> UnknownPacketIdError
    return packet_class.unpack(buf)

The `zlib` module is external; it is modelled by its contract: a
compress/decompress pair where decompression inverts compression
(decompress raising `zlib.error` is `none`) and compression expands its
input by at most a constant (zlib's compressBound-style guarantee).
-/

/-- Contract model of the external `zlib` module. -/
structure ZlibModel where
  compress : List Nat → List Nat
  decompress : List Nat → Option (List Nat)
  round : ∀ bs, decompress (compress bs) = some bs
  bound : ∀ bs, (compress bs).length ≤ bs.length + 1024

/-- A concrete instance of the `zlib` contract used to witness the
theorems: a one-byte `0x78` header (the usual first byte of a zlib
stream) in front of the raw data. -/
def zlibWitness : ZlibModel where
  compress bs := 0x78 :: bs
  decompress bs := match bs with
    | 0x78 :: r => some r
    | _ => none
  round bs := rfl
  bound bs := by simp

/-- The connection states of `pymine_net/enums.py` (`GameState`). -/
inductive GameState where
  | handshaking
  | status
  | login
  | play
deriving DecidableEq, Repr

/-- A packet variant: its class-level `id` together with its `pack`
and `unpack` methods.  `unpack` consumes from the front of the
remaining bytes and returns what it leaves.  (In the source the
variants for one direction of one state map ids to classes decoding to
different record types; the embedding keeps one decoded type `α` per
map, which is all the framing claims quantify over.) -/
structure PacketClass (α : Type) where
  id : Int
  pack : α → List Nat
  unpack : List Nat → Option (α × List Nat)

/-- `PacketMap`: the protocol id and the per-state id-to-variant
lookup (`self.packets[state].server_bound[packet_id]`; a missing id is
`none`, the source's `UnknownPacketIdError`). -/
structure PacketMap (α : Type) where
  protocol : Int
  packets : GameState → Int → Option (PacketClass α)

/-- The body built by `encode_packet` before the outer length varint
is prepended: the inner encoding `varint(id) ++ pack()`, wrapped by
the compression envelope when `compression_threshold >= 1`. -/
def encodeBody {α : Type} (z : ZlibModel) (T : Int) (c : PacketClass α) (p : α) :
    Option (List Nat) :=
  match writeVarint c.id with
  | none => none
  | some idBytes =>
    let inner := idBytes ++ c.pack p
    if 1 ≤ T then
      if T ≤ (inner.length : Int) then
        match writeVarint (inner.length : Int) with
        | none => none
        | some lenBytes => some (lenBytes ++ z.compress inner)
      else
        match writeVarint 0 with
        | none => none
        | some zeroBytes => some (zeroBytes ++ inner)
    else
      some inner

/-- `PacketMap.encode_packet(packet, compression_threshold)`: the full
frame, outer length varint followed by the body. -/
def PacketMap.encode_packet {α : Type} (_ : PacketMap α) (z : ZlibModel) (T : Int)
    (c : PacketClass α) (p : α) : Option (List Nat) :=
  match encodeBody z T c p with
  | none => none
  | some body =>
    match writeVarint (body.length : Int) with
    | none => none
    | some lenBytes => some (lenBytes ++ body)

/-- The common tail of `decode_packet`: read the packet-id varint,
look the class up (`none` = `UnknownPacketIdError`), and run its
`unpack` on the rest. -/
def decodeInner {α : Type} (lookup : Int → Option (PacketClass α)) (bs : List Nat) :
    Option (α × List Nat) :=
  match readVarint bs with
  | none => none
  | some (pid, rest) =>
    match lookup pid with
    | none => none
    | some c => c.unpack rest

/-- `PacketMap.decode_packet(buf, state, compression_threshold)` on a
frame body: when `compression_threshold >= 0`, first read the
uncompressed-length varint and, if it is positive, zlib-decompress all
remaining bytes (`buf.read_bytes()` reads to the end). -/
def PacketMap.decode_packet {α : Type} (m : PacketMap α) (z : ZlibModel) (buf : List Nat)
    (state : GameState) (T : Int) : Option (α × List Nat) :=
  if 0 ≤ T then
    match readVarint buf with
    | none => none
    | some (u, rest) =>
      if 0 < u then
        match z.decompress rest with
        | none => none
        | some inner => decodeInner (m.packets state) inner
      else
        decodeInner (m.packets state) rest
  else
    decodeInner (m.packets state) buf

/-- Unit packet with id 5, empty payload, and an `unpack` that
consumes nothing: the smallest concrete variant, used by the
counterexamples and witnesses. -/
def unitPacket : PacketClass Unit where
  id := 5
  pack _ := []
  unpack bs := some ((), bs)

/-- A one-state packet map registering only `unitPacket`. -/
def unitPacketMap : PacketMap Unit where
  protocol := 757
  packets _ pid := if pid = 5 then some unitPacket else none

/-! ### Client endpoint threshold handling, from `pymine_net/net/client.py`
and `pymine_net/net/socket/client.py`

`AbstractProtocolClient` stores `self.compression_threshold`
(initially -1), and its `_decode_packet` uses it.  `_encode_packet`,
however, is a `@staticmethod` with signature
`(packet, compression_threshold=-1)` — and `SocketTCPClient.write_packet`
(line 34, same in `AsyncProtocolClient.write_packet`) calls
`self._encode_packet(packet)` with ONE argument, so every written
packet is framed with the default threshold `-1`, regardless of the
endpoint's `self.compression_threshold`.
-/

/-- The mutable endpoint state of `AbstractProtocolClient`. -/
structure ProtocolClientState where
  state : GameState
  compression_threshold : Int

/-- `SocketTCPClient.write_packet`: frames with the default threshold
`-1` because the call to the static `_encode_packet` omits
`self.compression_threshold`. -/
def client_write_packet {α : Type} (z : ZlibModel) (_ : ProtocolClientState)
    (m : PacketMap α) (c : PacketClass α) (p : α) : Option (List Nat) :=
  m.encode_packet z (-1) c p

/-- `AbstractProtocolClient._decode_packet` on a frame body: uses the
endpoint's stored threshold. -/
def client_decode_packet {α : Type} (z : ZlibModel) (client : ProtocolClientState)
    (m : PacketMap α) (buf : List Nat) : Option (α × List Nat) :=
  m.decode_packet z buf client.state client.compression_threshold

/-! ### The packet registry, from `pymine_net/types/packet_map.py`

`StatePacketMap.from_list` (lines 46-73) builds, from a list of packet
classes, two Python dicts by comprehension —
`{p.id: p for p in packets if issubclass(p, ServerBoundPacket)}` and
the clientbound analogue — so a later list entry silently overwrites an
earlier one with the same id, and a class subclassing both
`ServerBoundPacket` and `ClientBoundPacket` lands in both dicts.  When
`check_duplicates` is true it then walks each dict's keys (insertion
order) and raises `DuplicatePacketIdError("unknown", state, packet_id,
direction)` for the first key owned by more than one list entry of
that direction, serverbound first.

A packet class at the registry level is its `id`, its two
`issubclass` direction flags, and a tag distinguishing distinct
classes that share an id.  Python dicts are insertion-ordered
association lists whose update-in-place keeps the original key
position.
-/

/-- `PacketDirection` from `pymine_net/enums.py`. -/
inductive PacketDirection where
  | serverbound
  | clientbound
deriving DecidableEq, Repr

/-- A packet class as the registry sees it. -/
structure PacketVariant where
  id : Int
  isServerBound : Bool
  isClientBound : Bool
  tag : Nat
deriving DecidableEq, Repr

/-- The payload of `DuplicatePacketIdError`. -/
structure DuplicatePacketIdError where
  protocol : String
  state : GameState
  packetId : Int
  direction : PacketDirection
deriving DecidableEq, Repr

/-- The per-state registry: the state and the two direction dicts. -/
structure StatePacketMap where
  state : GameState
  server_bound : List (Int × PacketVariant)
  client_bound : List (Int × PacketVariant)
deriving DecidableEq, Repr

/-- Python dict assignment `m[k] = v`: replace in place if the key is
present (keeping its position), append otherwise. -/
def dictUpdate (m : List (Int × PacketVariant)) (k : Int) (v : PacketVariant) :
    List (Int × PacketVariant) :=
  match m with
  | [] => [(k, v)]
  | (k1, v1) :: rest => if k1 = k then (k1, v) :: rest else (k1, v1) :: dictUpdate rest k v

/-- The dict comprehension `{p.id: p for p in packets if f(p)}`. -/
def dictOfPackets (f : PacketVariant → Bool) (packets : List PacketVariant) :
    List (Int × PacketVariant) :=
  packets.foldl (fun m p => if f p then dictUpdate m p.id p else m) []

/-- The `issubclass` test for a direction. -/
def directionFlag (d : PacketDirection) (p : PacketVariant) : Bool :=
  match d with
  | .serverbound => p.isServerBound
  | .clientbound => p.isClientBound

/-- `StatePacketMap.from_list(state, packets, check_duplicates=...)`:
build both dicts, and under `check_duplicates` raise
`DuplicatePacketIdError` for the first key (serverbound dict first, in
key insertion order) that more than one same-direction list entry
carries (`len(found) > 1`). -/
def StatePacketMap.from_list (state : GameState) (packets : List PacketVariant)
    (check_duplicates : Bool) : Except DuplicatePacketIdError StatePacketMap :=
  let sb := dictOfPackets (·.isServerBound) packets
  let cb := dictOfPackets (·.isClientBound) packets
  if check_duplicates then
    match (sb.map Prod.fst).find?
        (fun pid => decide (2 ≤ packets.countP (fun p => p.id == pid && p.isServerBound))) with
    | some pid => .error ⟨"unknown", state, pid, .serverbound⟩
    | none =>
      match (cb.map Prod.fst).find?
          (fun pid => decide (2 ≤ packets.countP (fun p => p.id == pid && p.isClientBound))) with
      | some pid => .error ⟨"unknown", state, pid, .clientbound⟩
      | none => .ok ⟨state, sb, cb⟩
  else
    .ok ⟨state, sb, cb⟩

/-! ### The NBT codec, from `pymine_net/types/nbt.py`

An NBT tag is `id byte + name (u16-length Modified-UTF-8) + payload`;
a compound payload is a sequence of full tags ended by a `0x00` byte;
a list payload is `child-id ("b") + count ("i") + count anonymous
child payloads`.  `nbt.unpack` (lines 31-49) first tries
`gzip.decompress` on the whole buffer (replacing it on success,
passing on `BadGzipFile`), then reads AND DISCARDS the root id byte,
reads the root name, and parses the rest as compound items.

The embedding covers the integer, string, array, list and compound
variants.  `TAG_Float` / `TAG_Double` (ids 5 and 6) carry IEEE floats
and are outside the shallow embedding; the payload reader maps them to
`none`, and no claim here touches them.  The external `gzip` and
`mutf8` libraries are modelled by contract structures with concrete
instances for evaluation.

The detail claim C5 turns on: `TAG_Byte.pack_data` (line 162) writes
the byte SIGNED (`BufferUtil.pack("b", self.data)`), but
`TAG_Byte.unpack_data` (line 167) reads it back with
`buf.read_byte()`, an UNSIGNED bytearray index — so a negative byte
comes back as `256 + data`.  Every other integer tag reads through
struct with a signed format.
-/

/-- Contract model of the external `gzip` module: `decompress` is
`none` when `gzip.decompress` raises `BadGzipFile` (no gzip magic). -/
structure GzipModel where
  compress : List Nat → List Nat
  decompress : List Nat → Option (List Nat)

/-- Concrete `gzip` instance for evaluation: the two gzip magic bytes
`0x1F 0x8B` in front of the raw data. -/
def gzipWitness : GzipModel where
  compress bs := 0x1F :: 0x8B :: bs
  decompress bs := match bs with
    | 0x1F :: 0x8B :: r => some r
    | _ => none

/-- Contract model of the external `mutf8` library
(`encode_modified_utf8` / `decode_modified_utf8`; decoding invalid
bytes raises, hence `Option`). -/
structure Mutf8Model where
  encode : String → List Nat
  decode : List Nat → Option String

/-- Concrete `mutf8` instance for evaluation: code points as bytes
(faithful on the ASCII names the claims use). -/
def mutf8Witness : Mutf8Model where
  encode s := s.data.map Char.toNat
  decode bs := some ⟨bs.map Char.ofNat⟩

/-- An NBT payload (the `data` of a tag).  Ids: End 0, Byte 1,
Short 2, Int 3, Long 4, ByteArray 7, String 8, List 9, Compound 10,
IntArray 11, LongArray 12.  List elements are anonymous payloads;
compound items are named tags. -/
inductive NVal where
  | vEnd
  | vByte (data : Int)
  | vShort (data : Int)
  | vInt (data : Int)
  | vLong (data : Int)
  | vByteArray (data : List Nat)
  | vString (data : String)
  | vList (elems : List NVal)
  | vCompound (items : List (String × NVal))
  | vIntArray (data : List Int)
  | vLongArray (data : List Int)

/-- The class-level tag id (`TAG.id`). -/
def NVal.tagId : NVal → Int
  | .vEnd => 0
  | .vByte _ => 1
  | .vShort _ => 2
  | .vInt _ => 3
  | .vLong _ => 4
  | .vByteArray _ => 7
  | .vString _ => 8
  | .vList _ => 9
  | .vCompound _ => 10
  | .vIntArray _ => 11
  | .vLongArray _ => 12

/-- `struct.pack` of a signed big-endian integer of `width` bytes
(formats `b`, `h`, `i`, `q`); struct.error (`none`) out of range. -/
def packIntBE (width : Nat) (v : Int) : Option (List Nat) :=
  if -(2 ^ (8 * width - 1)) ≤ v ∧ v ≤ 2 ^ (8 * width - 1) - 1 then
    some (natToBytesBE width (v.emod (2 ^ (8 * width))).toNat)
  else
    none

/-- `struct.pack(">H", v)`: unsigned big-endian u16. -/
def packU16BE (v : Nat) : Option (List Nat) :=
  if v < 2 ^ 16 then some (natToBytesBE 2 v) else none

/-- Take exactly `n` bytes off the front (`none` = struct.error or
IndexError on a short buffer). -/
def takeBytes (n : Nat) (bs : List Nat) : Option (List Nat × List Nat) :=
  if n ≤ bs.length then some (bs.take n, bs.drop n) else none

/-- Decode a signed big-endian integer of `width` bytes. -/
def decodeIntBE (width : Nat) (chunk : List Nat) : Int :=
  let u := bytesToNatBE chunk
  if 2 ^ (8 * width - 1) ≤ u then (u : Int) - 2 ^ (8 * width) else (u : Int)

/-- `buf.read(fmt)` for a signed integer format. -/
def readIntBE (width : Nat) (bs : List Nat) : Option (Int × List Nat) :=
  match takeBytes width bs with
  | none => none
  | some (chunk, rest) => some (decodeIntBE width chunk, rest)

/-- `[buf.read(fmt) for _ in range(count)]` for the int/long arrays. -/
def readIntListBE (width : Nat) : Nat → List Nat → Option (List Int × List Nat)
  | 0, bs => some ([], bs)
  | count + 1, bs =>
    match readIntBE width bs with
    | none => none
    | some (v, r1) =>
      match readIntListBE width count r1 with
      | none => none
      | some (xs, r2) => some (v :: xs, r2)

/-- `TAG.pack_name` / `TAG_String.pack_data`:
`pack("H", len(mutf8)) + mutf8`. -/
def packName (m : Mutf8Model) (s : String) : Option (List Nat) :=
  let encoded := m.encode s
  match packU16BE encoded.length with
  | none => none
  | some lenBytes => some (lenBytes ++ encoded)

/-- `TAG.unpack_name` / `TAG_String.unpack_data`:
`decode_modified_utf8(buf.read_bytes(buf.read("H")))`. -/
def unpackName (m : Mutf8Model) (bs : List Nat) : Option (String × List Nat) :=
  match takeBytes 2 bs with
  | none => none
  | some (lenBytes, r1) =>
    match takeBytes (bytesToNatBE lenBytes) r1 with
    | none => none
    | some (strBytes, r2) =>
      match m.decode strBytes with
      | none => none
      | some s => some (s, r2)

/-- The int/long array element join (non-recursive in `NVal`). -/
def packIntArrayData (width : Nat) : List Int → Option (List Nat)
  | [] => some []
  | x :: rest =>
    match packIntBE width x, packIntArrayData width rest with
    | some d, some r => some (d ++ r)
    | _, _ => none

mutual

/-- `pack_data` of each tag class.  The list case mirrors
`TAG_List.pack_data`: child id from `self[0].id` (or 0 when empty),
then the `"i"` count, then the joined child payloads.  `fuel` bounds
the recursion depth (CPython itself bounds it by the recursion
limit); every theorem instantiates it large enough for its input. -/
def packData (m : Mutf8Model) : Nat → NVal → Option (List Nat)
  | 0, _ => none
  | _ + 1, .vEnd => some []
  | _ + 1, .vByte d => packIntBE 1 d
  | _ + 1, .vShort d => packIntBE 2 d
  | _ + 1, .vInt d => packIntBE 4 d
  | _ + 1, .vLong d => packIntBE 8 d
  | _ + 1, .vByteArray bs =>
    match packIntBE 4 bs.length with
    | none => none
    | some lenBytes => some (lenBytes ++ bs)
  | _ + 1, .vString s => packName m s
  | fuel + 1, .vList elems =>
    match elems with
    | [] =>
      match packIntBE 1 0, packIntBE 4 0 with
      | some idb, some cntb => some (idb ++ cntb)
      | _, _ => none
    | e :: _ =>
      match packIntBE 1 e.tagId, packIntBE 4 (elems.length : Int) with
      | some idb, some cntb =>
        match packListData m fuel elems with
        | none => none
        | some parts => some (idb ++ cntb ++ parts)
      | _, _ => none
  | fuel + 1, .vCompound items =>
    match packItems m fuel items with
    | none => none
    | some parts => some (parts ++ [0])
  | _ + 1, .vIntArray xs =>
    match packIntBE 4 (xs.length : Int), packIntArrayData 4 xs with
    | some lenBytes, some parts => some (lenBytes ++ parts)
    | _, _ => none
  | _ + 1, .vLongArray xs =>
    match packIntBE 4 (xs.length : Int), packIntArrayData 8 xs with
    | some lenBytes, some parts => some (lenBytes ++ parts)
    | _, _ => none

/-- `b"".join([t.pack_data() for t in self])` of `TAG_List`. -/
def packListData (m : Mutf8Model) : Nat → List NVal → Option (List Nat)
  | 0, _ => none
  | _ + 1, [] => some []
  | fuel + 1, v :: rest =>
    match packData m fuel v with
    | none => none
    | some d =>
      match packListData m fuel rest with
      | none => none
      | some r => some (d ++ r)

/-- `b"".join([tag.pack() for tag in self.values()])` of
`TAG_Compound.pack_data`. -/
def packItems (m : Mutf8Model) : Nat → List (String × NVal) → Option (List Nat)
  | 0, _ => none
  | _ + 1, [] => some []
  | fuel + 1, (name, v) :: rest =>
    match packTag m fuel name v with
    | none => none
    | some t =>
      match packItems m fuel rest with
      | none => none
      | some r => some (t ++ r)

/-- `TAG.pack`: id byte, then name, then payload.  `TAG_End.pack`
overrides `pack_name` and `pack_data` to empty, leaving the bare id
byte. -/
def packTag (m : Mutf8Model) : Nat → String → NVal → Option (List Nat)
  | 0, _, _ => none
  | _ + 1, _, .vEnd => some [0]
  | fuel + 1, name, v =>
    match packIntBE 1 v.tagId, packName m name, packData m fuel v with
    | some idb, some nb, some db => some (idb ++ nb ++ db)
    | _, _, _ => none

end

mutual

/-- `TYPES[tagId].unpack_data(buf)`: dispatch on the tag id read from
the stream.  Python's `TYPES[i]` wraps one negative step
(`TYPES[-1]` is `TAG_Long_Array`), hence the `+ 13` for negative ids;
an id outside the table raises IndexError (`none`).  Ids 5 and 6
(float/double) are outside the embedding and also map to `none`.
`fuel` bounds the recursion depth of the Python call stack; every
theorem instantiates it large enough for its input. -/
def unpackData (m : Mutf8Model) : Nat → Int → List Nat → Option (NVal × List Nat)
  | 0, _, _ => none
  | fuel + 1, tagId, bs =>
    let idx := if tagId < 0 then tagId + 13 else tagId
    if idx = 0 then some (.vEnd, bs)
    else if idx = 1 then
      -- TAG_Byte.unpack_data: `buf.read_byte()` — an unsigned read.
      match bs with
      | [] => none
      | b :: rest => some (.vByte (b : Int), rest)
    else if idx = 2 then
      match readIntBE 2 bs with
      | none => none
      | some (v, rest) => some (.vShort v, rest)
    else if idx = 3 then
      match readIntBE 4 bs with
      | none => none
      | some (v, rest) => some (.vInt v, rest)
    else if idx = 4 then
      match readIntBE 8 bs with
      | none => none
      | some (v, rest) => some (.vLong v, rest)
    else if idx = 7 then
      match readIntBE 4 bs with
      | none => none
      | some (len, r1) =>
        match takeBytes len.toNat r1 with
        | none => none
        | some (chunk, r2) => some (.vByteArray chunk, r2)
    else if idx = 8 then
      match unpackName m bs with
      | none => none
      | some (s, rest) => some (.vString s, rest)
    else if idx = 9 then
      match readIntBE 1 bs with
      | none => none
      | some (childId, r1) =>
        match readIntBE 4 r1 with
        | none => none
        | some (count, r2) =>
          -- `range(count)` of a negative count is empty, as is `.toNat`.
          match unpackListData m fuel childId count.toNat r2 with
          | none => none
          | some (elems, r3) => some (.vList elems, r3)
    else if idx = 10 then
      match unpackItems m fuel bs with
      | none => none
      | some (items, rest) => some (.vCompound items, rest)
    else if idx = 11 then
      match readIntBE 4 bs with
      | none => none
      | some (count, r1) =>
        match readIntListBE 4 count.toNat r1 with
        | none => none
        | some (xs, r2) => some (.vIntArray xs, r2)
    else if idx = 12 then
      match readIntBE 8 bs with
      | none => none
      | some (count, r1) =>
        match readIntListBE 8 count.toNat r1 with
        | none => none
        | some (xs, r2) => some (.vLongArray xs, r2)
    else none

/-- `[tag(None, tag.unpack_data(buf)) for _ in range(length)]` of
`TAG_List.unpack_data`: `count` anonymous payloads of the declared
child id. -/
def unpackListData (m : Mutf8Model) : Nat → Int → Nat → List Nat →
    Option (List NVal × List Nat)
  | 0, _, _, _ => none
  | _ + 1, _, 0, bs => some ([], bs)
  | fuel + 1, childId, count + 1, bs =>
    match unpackData m fuel childId bs with
    | none => none
    | some (v, r1) =>
      match unpackListData m fuel childId count r1 with
      | none => none
      | some (rest, r2) => some (v :: rest, r2)

/-- `TAG_Compound.unpack_data`: read tags until the `TAG_End` id
(byte `0x00`, or `0xF3 = -13` through Python's negative `TYPES`
indexing).  (Python looks the id up in `TYPES` before reading the
name, so an invalid id fails one step earlier there; the overall
result is `none` either way.) -/
def unpackItems (m : Mutf8Model) : Nat → List Nat →
    Option (List (String × NVal) × List Nat)
  | 0, _ => none
  | fuel + 1, bs =>
    match readIntBE 1 bs with
    | none => none
    | some (tid, r1) =>
      let idx := if tid < 0 then tid + 13 else tid
      if idx = 0 then some ([], r1)
      else
        match unpackName m r1 with
        | none => none
        | some (name, r2) =>
          match unpackData m fuel tid r2 with
          | none => none
          | some (v, r3) =>
            match unpackItems m fuel r3 with
            | none => none
            | some (rest, r4) => some ((name, v) :: rest, r4)

end

/-- `nbt.unpack(buf)` with `root_is_full=True`: try
`gzip.decompress` (replace the buffer on success, pass on
`BadGzipFile`), read and discard the root id byte (IndexError on an
empty buffer), read the root name, and parse compound items; the
result is always a `TAG_Compound`. -/
def nbtUnpack (g : GzipModel) (m : Mutf8Model) (buf : List Nat) : Option (String × NVal) :=
  let buf1 := match g.decompress buf with
    | some d => d
    | none => buf
  match buf1 with
  | [] => none
  | _ :: rest =>
    match unpackName m rest with
    | none => none
    | some (name, r1) =>
      match unpackItems m (r1.length + 1) r1 with
      | none => none
      | some (items, _) => some (name, .vCompound items)

/-! ## Theorems: the claims, their lemmas, witnesses and counterexamples -/

/-- Disjoint-bits `or` is addition: folding a 7-bit group into the
accumulator with `|=` at a shift above all accumulated bits is plain
addition. -/
theorem lor_shiftLeft_eq_add {acc : Nat} (g : Nat) {shift : Nat} (h : acc < 2 ^ shift) :
    acc ||| (g <<< shift) = acc + g * 2 ^ shift := by
  rw [Nat.shiftLeft_eq, Nat.or_comm, Nat.mul_comm g (2 ^ shift),
    ← Nat.mul_add_lt_is_or h g, Nat.add_comm]

/-- Reading back what the write loop emitted: with matching fuel, a
value small enough for the fuel, and an accumulator below the current
shift, the read loop returns the accumulator extended by the value and
leaves exactly the appended bytes. -/
theorem readVarintLoop_writeVarintLoop :
    ∀ (fuel value shift acc : Nat) (extra : List Nat),
      value < 2 ^ (7 * fuel) → acc < 2 ^ shift →
      readVarintLoop fuel (writeVarintLoop fuel value ++ extra) shift acc =
        some (acc + value * 2 ^ shift, extra) := by
  intro fuel
  induction fuel with
  | zero =>
    intro value shift acc extra hv _
    norm_num at hv
    subst hv
    simp [writeVarintLoop, readVarintLoop]
  | succ f ih =>
    intro value shift acc extra hv hacc
    by_cases hrest : value / 128 = 0
    · have hvlt : value < 128 := by omega
      simp only [writeVarintLoop, if_pos hrest, List.cons_append, List.nil_append,
        readVarintLoop]
      simp only [Nat.mod_eq_of_lt hvlt]
      rw [if_pos hvlt, lor_shiftLeft_eq_add value hacc]
    · simp only [writeVarintLoop, if_neg hrest, List.cons_append, readVarintLoop]
      rw [if_neg (by omega : ¬ value % 128 + 128 < 128)]
      have hmod128 : (value % 128 + 128) % 128 = value % 128 := by omega
      rw [hmod128, lor_shiftLeft_eq_add (value % 128) hacc]
      have heq : 2 ^ (7 * (f + 1)) = 2 ^ (7 * f) * 128 := by
        rw [show 7 * (f + 1) = 7 * f + 7 by ring, pow_add]; norm_num
      have hrest_lt : value / 128 < 2 ^ (7 * f) := by omega
      have hpow7 : 2 ^ (shift + 7) = 2 ^ shift * 128 := by
        rw [pow_add]; norm_num
      have hacc1_lt : acc + value % 128 * 2 ^ shift < 2 ^ (shift + 7) := by
        have h2 : value % 128 * 2 ^ shift ≤ 127 * 2 ^ shift :=
          Nat.mul_le_mul_right _ (by omega)
        omega
      rw [ih (value / 128) (shift + 7) (acc + value % 128 * 2 ^ shift) extra hrest_lt hacc1_lt]
      have harith : acc + value % 128 * 2 ^ shift + value / 128 * 2 ^ (shift + 7) =
          acc + value * 2 ^ shift := by
        have hdm : 128 * (value / 128) + value % 128 = value := Nat.div_add_mod value 128
        conv_rhs => rw [← hdm]
        rw [hpow7]
        ring
      rw [harith]

/-- The write loop emits at most `groups` bytes when the value fits in
`7 * groups` bits (and at least one group is allowed). -/
theorem writeVarintLoop_length :
    ∀ (fuel value groups : Nat), 1 ≤ groups → groups ≤ fuel → value < 2 ^ (7 * groups) →
      (writeVarintLoop fuel value).length ≤ groups := by
  intro fuel
  induction fuel with
  | zero => intro value groups _ h2 _; omega
  | succ f ih =>
    intro value groups h1 h2 hv
    by_cases hrest : value / 128 = 0
    · simp only [writeVarintLoop, if_pos hrest, List.length_singleton]
      omega
    · simp only [writeVarintLoop, if_neg hrest, List.length_cons]
      have hg : 2 ≤ groups := by
        by_contra hcon
        have hone : groups = 1 := by omega
        subst hone
        norm_num at hv
        omega
      have heq : 2 ^ (7 * groups) = 2 ^ (7 * (groups - 1)) * 128 := by
        rw [show 7 * groups = 7 * (groups - 1) + 7 by omega, pow_add]; norm_num
      have hrest_lt : value / 128 < 2 ^ (7 * (groups - 1)) := by omega
      have := ih (value / 128) (groups - 1) (by omega) (by omega) hrest_lt
      omega

/-- `u & (1 << i)` vanishes exactly when bit `i` of `u` is clear. -/
theorem and_two_pow_eq (u i : Nat) :
    u &&& 2 ^ i = if u.testBit i then 2 ^ i else 0 := by
  apply Nat.eq_of_testBit_eq
  intro j
  rw [Nat.testBit_and, Nat.testBit_two_pow]
  by_cases hb : u.testBit i
  · rw [if_pos hb, Nat.testBit_two_pow]
    by_cases hj : i = j
    · subst hj
      simp [hb]
    · simp [hj]
  · rw [if_neg hb, Nat.zero_testBit]
    by_cases hj : i = j
    · subst hj
      simp [hb]
    · simp [hj]

/-- Bit 31 as seen by the `value & (1 << 31)` test of `read_varint`. -/
theorem and_bit31_eq_zero_iff (u : Nat) (h : u < 2 ^ 32) :
    u &&& (1 <<< 31) = 0 ↔ u < 2 ^ 31 := by
  have h31 : (1 : Nat) <<< 31 = 2 ^ 31 := by rw [Nat.shiftLeft_eq]; ring
  rw [h31, and_two_pow_eq]
  have htb : u.testBit 31 = decide (u / 2 ^ 31 % 2 = 1) := Nat.testBit_to_div_mod
  by_cases hb : u.testBit 31
  · rw [if_pos hb]
    have hd : u / 2 ^ 31 % 2 = 1 := by
      rw [htb] at hb; simpa using hb
    norm_num at hd h ⊢
    omega
  · rw [if_neg hb]
    have hd : ¬ u / 2 ^ 31 % 2 = 1 := by
      rw [htb] at hb; simpa using hb
    norm_num at hd h ⊢
    omega

/-- Round trip of the varint codec at the level of a byte stream: an
in-range value writes successfully, and reading its encoding (followed
by arbitrary trailing bytes) returns the value and exactly the trailing
bytes. -/
theorem readVarint_writeVarint (value : Int) (bs : List Nat) (extra : List Nat)
    (h : writeVarint value = some bs) :
    readVarint (bs ++ extra) = some (value, extra) := by
  unfold writeVarint at h
  split at h
  case isFalse => exact absurd h (by simp)
  case isTrue hrange =>
    obtain ⟨hlo, hhi⟩ := hrange
    by_cases hneg : value < 0
    · rw [if_pos hneg] at h
      set u : Nat := (value + 2 ^ 32).toNat with hu
      have hval : (u : Int) = value + 2 ^ 32 := by rw [hu]; omega
      have hu_lo : 2 ^ 31 ≤ u := by omega
      have hu_hi : u < 2 ^ 32 := by omega
      have hbs : bs = writeVarintLoop 10 u := (Option.some_injective _ h).symm
      unfold readVarint
      rw [hbs, readVarintLoop_writeVarintLoop 10 u 0 0 extra (by norm_num; omega) (by norm_num)]
      simp only [Nat.zero_add, Nat.pow_zero, Nat.mul_one]
      have hbit : ¬ (u &&& (1 <<< 31) = 0) := by
        rw [and_bit31_eq_zero_iff u hu_hi]; omega
      simp only [ne_eq, hbit, not_false_eq_true, if_true, ite_true]
      have hsub : (u : Int) - 2 ^ 32 = value := by omega
      rw [hsub]
      split
      · rfl
      · rename_i hcon
        exact (hcon ⟨hlo, hhi⟩).elim
    · rw [if_neg hneg] at h
      push_neg at hneg
      set u : Nat := value.toNat with hu
      have hval : (u : Int) = value := by omega
      have hu_hi : u < 2 ^ 31 := by omega
      have hbs : bs = writeVarintLoop 10 u := (Option.some_injective _ h).symm
      unfold readVarint
      rw [hbs, readVarintLoop_writeVarintLoop 10 u 0 0 extra (by norm_num; omega) (by norm_num)]
      simp only [Nat.zero_add, Nat.pow_zero, Nat.mul_one]
      have hbit : u &&& (1 <<< 31) = 0 := by
        rw [and_bit31_eq_zero_iff u (by omega)]; exact hu_hi
      simp only [ne_eq, hbit, not_true_eq_false, if_false, ite_false]
      rw [hval]
      split
      · rfl
      · rename_i hcon
        exact (hcon ⟨hlo, hhi⟩).elim

/-- An in-range value's encoding is at most 5 bytes long. -/
theorem writeVarint_length (value : Int) (bs : List Nat)
    (h : writeVarint value = some bs) : bs.length ≤ 5 := by
  unfold writeVarint at h
  split at h
  case isFalse => exact absurd h (by simp)
  case isTrue hrange =>
    have hbs := (Option.some_injective _ h).symm
    rw [hbs]
    refine writeVarintLoop_length 10 _ 5 (by norm_num) (by norm_num) ?_
    split
    · norm_num; omega
    · norm_num; omega

/-- C3: `write_varint(2147483647)` emits exactly `FF FF FF FF 07`;
`write_varint(-1)` emits exactly `FF FF FF FF 0F`;
`write_varint(2147483648)` raises (the spec's `ValueOutOfRange`, a
`ValueError` in the source); and every value in `[-2^31, 2^31-1]`
encodes in at most 5 bytes and reads back to itself. -/
theorem varint_boundary_and_roundtrip :
    writeVarint 2147483647 = some [0xFF, 0xFF, 0xFF, 0xFF, 0x07] ∧
    writeVarint (-1) = some [0xFF, 0xFF, 0xFF, 0xFF, 0x0F] ∧
    writeVarint 2147483648 = none ∧
    ∀ value : Int, -(2 ^ 31) ≤ value → value ≤ 2 ^ 31 - 1 →
      ∃ bs, writeVarint value = some bs ∧ bs.length ≤ 5 ∧
        readVarint bs = some (value, []) := by
  refine ⟨by decide, by decide, by decide, ?_⟩
  intro value hlo hhi
  have hw : ∃ bs, writeVarint value = some bs := by
    unfold writeVarint
    rw [if_pos ⟨hlo, hhi⟩]
    exact ⟨_, rfl⟩
  obtain ⟨bs, hbs⟩ := hw
  refine ⟨bs, hbs, writeVarint_length value bs hbs, ?_⟩
  have := readVarint_writeVarint value bs [] hbs
  simpa using this

/-- Witness for C3's quantified round-trip part at `value = -1`. -/
theorem varint_boundary_and_roundtrip_witness :
    ∃ bs, writeVarint (-1) = some bs ∧ bs.length ≤ 5 ∧
      readVarint bs = some (-1, []) :=
  varint_boundary_and_roundtrip.2.2.2 (-1) (by norm_num) (by norm_num)

/-- C6 counterexample: `read_varint` does NOT fail on an over-long
varint.  The 6-byte encoding `80 80 80 80 80 00` (more than 5
continuation groups) is accepted and decodes to `0` instead of raising
`CorruptPacket`; the source has no over-long check, only the
`range(10)` bound and the final range check. -/
theorem read_varint_overlong_not_rejected :
    readVarint [0x80, 0x80, 0x80, 0x80, 0x80, 0x00] = some (0, []) := by
  decide

/-- C6 as amended: `read_varint` (default `max_bits = 32`) reads up to
ten 7-bit groups and accepts over-long encodings rather than failing:
for every `k ≤ 9`, the `(k+1)`-byte encoding of `0` made of `k`
continuation bytes `0x80` followed by `0x00` decodes successfully
to `0`. -/
theorem read_varint_accepts_overlong (k : Nat) (hk : k ≤ 9) :
    readVarint (List.replicate k 0x80 ++ [0x00]) = some (0, []) := by
  interval_cases k <;> decide

/-- Witness for the amended C6 at `k = 7` (an 8-byte over-long
encoding). -/
theorem read_varint_accepts_overlong_witness :
    readVarint (List.replicate 7 0x80 ++ [0x00]) = some (0, []) :=
  read_varint_accepts_overlong 7 (by norm_num)

/-- C4 (code bug): `write_position(1, 2, 3)` followed by
`read_position` yields `(131072, 0, 0)`, not `(1, 2, 3)`: the missing
parentheses in `write_position` pack the value `1 << (38+3) << (12+2)
= 2^55` instead of `(1 << 38) | (3 << 12) | 2`, so the round trip the
claim (and the source's own `read_position`) expects fails. -/
theorem write_position_1_2_3_not_roundtrip :
    (write_position 1 2 3).bind read_position =
      some (((131072 : Int), (0 : Int), (0 : Int)), []) ∧
    ((131072 : Int), (0 : Int), (0 : Int)) ≠ ((1 : Int), (2 : Int), (3 : Int)) := by
  constructor
  · decide
  · decide

/-- C8 counterexample: a read past the end of the buffer does NOT
fail and breaks `pos ≤ len`.  `read_bytes(5)` on an empty buffer
returns the clamped (empty, hence short) slice instead of failing, and
the `finally: self.pos += length` leaves `pos = 5 > 0 = len`. -/
theorem read_bytes_past_end_returns_short :
    Buffer.read_bytes ⟨[], 0⟩ 5 = ([], ⟨[], 5⟩) ∧
    (Buffer.read_bytes ⟨[], 0⟩ 5).1.length < 5 ∧
    (Buffer.read_bytes ⟨[], 0⟩ 5).2.data.length < (Buffer.read_bytes ⟨[], 0⟩ 5).2.pos := by
  refine ⟨by decide, by decide, by decide⟩

/-- C8 as amended: `pos` is never negative (it is a `Nat`); `reset`
zeroes `pos` leaving the contents unchanged; `clear` empties the
container and zeroes `pos`; `read_bytes` always advances `pos` by
exactly the requested length, and when the request stays within the
remaining bytes it returns exactly that many bytes and preserves
`pos ≤ len`; `read_byte` at or past the end fails; a fixed-width
`read` whose size exceeds the remaining bytes fails (struct.error)
rather than returning short data.  (`read_bytes` with an out-of-bounds
length is the exception the counterexample exhibits: it returns the
clamped short slice and pushes `pos` past `len`.) -/
theorem buffer_cursor_invariants (b : Buffer) (n : Nat) :
    (b.reset.pos = 0 ∧ b.reset.data = b.data) ∧
    (b.clear.data = [] ∧ b.clear.pos = 0) ∧
    (b.read_bytes n).2.pos = b.pos + n ∧
    (b.pos + n ≤ b.data.length →
      (b.read_bytes n).1.length = n ∧
      (b.read_bytes n).2.pos ≤ (b.read_bytes n).2.data.length) ∧
    (b.data.length ≤ b.pos → b.read_byte = none) ∧
    (1 ≤ n → b.data.length < b.pos + n → b.read_exact n = none) := by
  refine ⟨⟨rfl, rfl⟩, ⟨rfl, rfl⟩, rfl, ?_, ?_, ?_⟩
  · intro hin
    constructor
    · simp [Buffer.read_bytes]
      omega
    · simpa [Buffer.read_bytes] using hin
  · intro hend
    simp [Buffer.read_byte, List.getElem?_eq_none hend]
  · intro hn hshort
    have hlen : ((b.data.drop b.pos).take n).length < n := by
      simp
      omega
    simp [Buffer.read_exact, Buffer.read_bytes]
    omega

/-- Witness for C8's amended invariants on a concrete buffer: three
data bytes, cursor at 1, reading 2 bytes. -/
theorem buffer_cursor_invariants_witness :
    ((Buffer.mk [7, 8, 9] 1).read_bytes 2).1.length = 2 ∧
    ((Buffer.mk [7, 8, 9] 1).read_bytes 2).2.pos ≤
      ((Buffer.mk [7, 8, 9] 1).read_bytes 2).2.data.length ∧
    (Buffer.mk [7, 8, 9] 3).read_byte = none ∧
    (Buffer.mk [7, 8, 9] 2).read_exact 2 = none :=
  ⟨((buffer_cursor_invariants ⟨[7, 8, 9], 1⟩ 2).2.2.2.1 (by norm_num)).1,
   ((buffer_cursor_invariants ⟨[7, 8, 9], 1⟩ 2).2.2.2.1 (by norm_num)).2,
   (buffer_cursor_invariants ⟨[7, 8, 9], 3⟩ 0).2.2.2.2.1 (by norm_num),
   (buffer_cursor_invariants ⟨[7, 8, 9], 2⟩ 2).2.2.2.2.2 (by norm_num) (by norm_num)⟩

/-- Helper: `decodeInner` after the id varint round-trips the packet
payload. -/
theorem decodeInner_of_writeVarint {α : Type} (lookup : Int → Option (PacketClass α))
    (c : PacketClass α) (p : α) (idBytes : List Nat)
    (hidb : writeVarint c.id = some idBytes)
    (hlook : lookup c.id = some c)
    (hunpack : ∀ extra, c.unpack (c.pack p ++ extra) = some (p, extra)) :
    decodeInner lookup (idBytes ++ c.pack p) = some (p, []) := by
  unfold decodeInner
  rw [readVarint_writeVarint c.id idBytes (c.pack p) hidb]
  simp only [hlook]
  have := hunpack []
  rwa [List.append_nil] at this

/-- C1 as amended: the framing round trip holds for `T = -1` and for
every `T ≥ 1` — but not for `T = 0` (see the counterexample): the
encoder treats `T = 0` as compression-disabled (`>= 1`) while the
decoder treats it as compression-enabled (`>= 0`).  Under the stated
hypotheses (the variant is registered for its id in the given state,
its `unpack` inverts its `pack` consuming exactly the packed bytes,
its id is in varint range, and the payload fits a frame), the frame is
the outer length varint followed by the body, and decoding the body
with the same threshold and state returns the packet and consumes
everything. -/
theorem encode_decode_packet_roundtrip {α : Type} (z : ZlibModel) (m : PacketMap α)
    (st : GameState) (c : PacketClass α) (p : α) (T : Int)
    (hT : T = -1 ∨ 1 ≤ T)
    (hlook : m.packets st c.id = some c)
    (hunpack : ∀ extra, c.unpack (c.pack p ++ extra) = some (p, extra))
    (hid : -(2 ^ 31) ≤ c.id ∧ c.id ≤ 2 ^ 31 - 1)
    (hsize : ((c.pack p).length : Int) + 2048 ≤ 2 ^ 31) :
    ∃ body lenBytes,
      encodeBody z T c p = some body ∧
      writeVarint (body.length : Int) = some lenBytes ∧
      m.encode_packet z T c p = some (lenBytes ++ body) ∧
      m.decode_packet z body st T = some (p, []) := by
  obtain ⟨idBytes, hidb⟩ : ∃ bs, writeVarint c.id = some bs := by
    unfold writeVarint
    rw [if_pos hid]
    exact ⟨_, rfl⟩
  have hidb_len : idBytes.length ≤ 5 := writeVarint_length _ _ hidb
  set inner := idBytes ++ c.pack p with hinner
  have hinner_len : (inner.length : Int) ≤ 2 ^ 31 - 2043 := by
    simp only [hinner, List.length_append]
    push_cast
    omega
  have hbody :
      ∃ body, encodeBody z T c p = some body ∧
        (body.length : Int) ≤ 2 ^ 31 - 1 ∧
        m.decode_packet z body st T = some (p, []) := by
    rcases hT with hT | hT
    · -- T = -1: both sides skip the compression envelope.
      subst hT
      refine ⟨inner, ?_, ?_, ?_⟩
      · unfold encodeBody
        rw [hidb]
        norm_num
      · simp only [hinner, List.length_append]
        push_cast
        omega
      · unfold PacketMap.decode_packet
        rw [if_neg (by norm_num)]
        exact decodeInner_of_writeVarint _ c p idBytes hidb hlook hunpack
    · -- T ≥ 1: the envelope is the zlib form or the varint(0) sentinel.
      by_cases hlen : T ≤ (inner.length : Int)
      · obtain ⟨lenB, hlenB⟩ : ∃ bs, writeVarint (inner.length : Int) = some bs := by
          unfold writeVarint
          rw [if_pos ⟨by omega, by omega⟩]
          exact ⟨_, rfl⟩
        have hlenB_len : lenB.length ≤ 5 := writeVarint_length _ _ hlenB
        refine ⟨lenB ++ z.compress inner, ?_, ?_, ?_⟩
        · unfold encodeBody
          rw [hidb]
          simp only [← hinner, if_pos hT, if_pos hlen, hlenB]
        · have := z.bound inner
          simp only [hinner, List.length_append] at *
          push_cast at *
          omega
        · unfold PacketMap.decode_packet
          rw [if_pos (by omega : (0 : Int) ≤ T)]
          rw [readVarint_writeVarint _ _ _ hlenB]
          simp only [if_pos (by omega : (0 : Int) < (inner.length : Int)), z.round]
          exact decodeInner_of_writeVarint _ c p idBytes hidb hlook hunpack
      · have hzero : writeVarint 0 = some [0] := by decide
        refine ⟨[0] ++ inner, ?_, ?_, ?_⟩
        · unfold encodeBody
          rw [hidb]
          simp only [← hinner, if_pos hT, if_neg hlen, hzero]
        · simp only [hinner, List.length_append, List.length_singleton]
          push_cast
          omega
        · unfold PacketMap.decode_packet
          rw [if_pos (by omega : (0 : Int) ≤ T)]
          rw [readVarint_writeVarint 0 [0] inner hzero]
          simp only [if_neg (by omega : ¬ (0 : Int) < 0)]
          exact decodeInner_of_writeVarint _ c p idBytes hidb hlook hunpack
  obtain ⟨body, henc, hblen, hdec⟩ := hbody
  obtain ⟨lenB, hlenB⟩ : ∃ bs, writeVarint (body.length : Int) = some bs := by
    unfold writeVarint
    rw [if_pos ⟨by omega, by omega⟩]
    exact ⟨_, rfl⟩
  refine ⟨body, lenB, henc, hlenB, ?_, hdec⟩
  unfold PacketMap.encode_packet
  rw [henc]
  simp only [hlenB]

/-- Witness for the C1 round trip: the unit packet through the unit
map at threshold `T = 1` (compression active, zlib branch taken). -/
theorem encode_decode_packet_roundtrip_witness :
    ∃ body lenBytes,
      encodeBody zlibWitness 1 unitPacket () = some body ∧
      writeVarint (body.length : Int) = some lenBytes ∧
      unitPacketMap.encode_packet zlibWitness 1 unitPacket () = some (lenBytes ++ body) ∧
      unitPacketMap.decode_packet zlibWitness body GameState.play 1 = some ((), []) :=
  encode_decode_packet_roundtrip zlibWitness unitPacketMap GameState.play unitPacket () 1
    (Or.inr (by norm_num)) rfl (fun extra => rfl) (by decide) (by decide)

/-- C1 counterexample: the round trip FAILS at threshold `T = 0`,
which the claim includes (`T ≥ -1`).  The encoder emits the bare inner
encoding `[0x05]` (it compresses only when `T >= 1`) and the decoder
(which runs its compression path whenever `T >= 0`) reads `5` as an
uncompressed-length varint, treats the empty rest as a zlib stream,
and fails, instead of returning the packet. -/
theorem encode_decode_packet_fails_at_zero :
    (encodeBody zlibWitness 0 unitPacket ()).bind
      (fun body => unitPacketMap.decode_packet zlibWitness body GameState.play 0) = none := by
  decide

/-- C2 as amended: with `T = 0` (exactly as with `T = -1`) the frame
body is the bare inner encoding, NOT the compressed form — the encoder
enables the envelope only for `T >= 1`; with `T ≥ 1`, an inner
encoding shorter than `T` gets the `varint(0)` sentinel and one of
length `≥ T` is zlib-compressed with its uncompressed length as the
inner varint. -/
theorem compression_switch {α : Type} (z : ZlibModel) (c : PacketClass α) (p : α) (T : Int)
    (idBytes : List Nat)
    (hidb : writeVarint c.id = some idBytes)
    (hsize : ((idBytes ++ c.pack p).length : Int) ≤ 2 ^ 31 - 1) :
    (T = 0 → encodeBody z T c p = some (idBytes ++ c.pack p)) ∧
    (T = -1 → encodeBody z T c p = some (idBytes ++ c.pack p)) ∧
    (1 ≤ T → ((idBytes ++ c.pack p).length : Int) < T →
      encodeBody z T c p = some (0 :: (idBytes ++ c.pack p))) ∧
    (1 ≤ T → T ≤ ((idBytes ++ c.pack p).length : Int) →
      ∃ lenBytes, writeVarint ((idBytes ++ c.pack p).length : Int) = some lenBytes ∧
        encodeBody z T c p = some (lenBytes ++ z.compress (idBytes ++ c.pack p))) := by
  refine ⟨?_, ?_, ?_, ?_⟩
  · intro hT
    subst hT
    unfold encodeBody
    rw [hidb]
    norm_num
  · intro hT
    subst hT
    unfold encodeBody
    rw [hidb]
    norm_num
  · intro hT hlen
    have hzero : writeVarint 0 = some [0] := by decide
    unfold encodeBody
    rw [hidb]
    simp only [if_pos hT, if_neg (by omega : ¬ T ≤ ((idBytes ++ c.pack p).length : Int)), hzero]
    rfl
  · intro hT hlen
    obtain ⟨lenB, hlenB⟩ : ∃ bs, writeVarint ((idBytes ++ c.pack p).length : Int) = some bs := by
      unfold writeVarint
      rw [if_pos ⟨by omega, by omega⟩]
      exact ⟨_, rfl⟩
    refine ⟨lenB, hlenB, ?_⟩
    unfold encodeBody
    rw [hidb]
    simp only [if_pos hT, if_pos hlen, hlenB]

/-- Witness for the amended C2: the unit packet (inner encoding
`[0x05]`, length 1) at `T = 0`, `T = -1`, `T = 2` (sentinel branch)
and `T = 1` (zlib branch). -/
theorem compression_switch_witness :
    encodeBody zlibWitness 0 unitPacket () = some [5] ∧
    encodeBody zlibWitness (-1) unitPacket () = some [5] ∧
    encodeBody zlibWitness 2 unitPacket () = some (0 :: [5]) ∧
    ∃ lenBytes, writeVarint (([5] : List Nat).length : Int) = some lenBytes ∧
      encodeBody zlibWitness 1 unitPacket () = some (lenBytes ++ zlibWitness.compress [5]) := by
  have h := compression_switch zlibWitness unitPacket () 0 [5] (by decide) (by decide)
  have h2 := compression_switch zlibWitness unitPacket () (-1) [5] (by decide) (by decide)
  have h3 := compression_switch zlibWitness unitPacket () 2 [5] (by decide) (by decide)
  have h4 := compression_switch zlibWitness unitPacket () 1 [5] (by decide) (by decide)
  exact ⟨h.1 rfl, h2.2.1 rfl, h3.2.2.1 (by norm_num) (by decide),
    h4.2.2.2 (by norm_num) (by decide)⟩

/-- C2 counterexample: at `T = 0` the frame body of the unit packet is
`[0x05]` — byte-identical to the `T = -1` (compression-disabled) body,
not starting with the `varint(0)` sentinel, and rejected by the
compressed-form decoder — refuting the claim that every `T = 0` frame
body is in compressed form. -/
theorem compression_switch_zero_not_compressed :
    encodeBody zlibWitness 0 unitPacket () = some [5] ∧
    encodeBody zlibWitness (-1) unitPacket () = some [5] ∧
    ([5] : List Nat).head? ≠ some 0 ∧
    unitPacketMap.decode_packet zlibWitness [5] GameState.play 0 = none := by
  refine ⟨by decide, by decide, by decide, by decide⟩

/-- C7 (code bug): after the endpoint's `compression_threshold` is set
to `T = 1`, `write_packet` still frames the unit packet as `[1, 5]` —
the threshold `-1` plain frame — not as the `T = 1` frame
`[3, 1, 0x78, 5]` the claim (and the symmetric decode path) requires;
feeding the written frame's body to the endpoint's own
threshold-aware decoder fails. -/
theorem client_write_packet_ignores_threshold :
    client_write_packet zlibWitness ⟨GameState.play, 1⟩ unitPacketMap unitPacket () =
      some [1, 5] ∧
    unitPacketMap.encode_packet zlibWitness
      (ProtocolClientState.mk GameState.play 1).compression_threshold unitPacket () =
      some [3, 1, 0x78, 5] ∧
    some [1, 5] ≠ some [3, 1, 0x78, 5] ∧
    client_decode_packet zlibWitness ⟨GameState.play, 1⟩ unitPacketMap [5] = none := by
  refine ⟨by decide, by decide, by decide, by decide⟩

/-- Unfolding `dictUpdate` on a matching head key. -/
theorem dictUpdate_cons_self (khd : Int) (vhd : PacketVariant) (tl : List (Int × PacketVariant))
    (k : Int) (v : PacketVariant) (h : khd = k) :
    dictUpdate ((khd, vhd) :: tl) k v = (khd, v) :: tl := by
  simp [dictUpdate, h]

/-- Unfolding `dictUpdate` on a non-matching head key. -/
theorem dictUpdate_cons_ne (khd : Int) (vhd : PacketVariant) (tl : List (Int × PacketVariant))
    (k : Int) (v : PacketVariant) (h : ¬ khd = k) :
    dictUpdate ((khd, vhd) :: tl) k v = (khd, vhd) :: dictUpdate tl k v := by
  simp [dictUpdate, h]

/-- Keys of a dict after one assignment. -/
theorem mem_keys_dictUpdate (m : List (Int × PacketVariant)) (k : Int) (v : PacketVariant)
    (k1 : Int) :
    k1 ∈ (dictUpdate m k v).map Prod.fst ↔ k1 ∈ m.map Prod.fst ∨ k1 = k := by
  induction m with
  | nil => simp [dictUpdate]
  | cons hd tl ih =>
    obtain ⟨khd, vhd⟩ := hd
    by_cases hk : khd = k
    · rw [dictUpdate_cons_self khd vhd tl k v hk]
      subst hk
      simp only [List.map_cons, List.mem_cons]
      tauto
    · rw [dictUpdate_cons_ne khd vhd tl k v hk]
      simp only [List.map_cons, List.mem_cons, ih]
      tauto

/-- Keys of the comprehension dict: exactly the ids of the list
entries passing the filter. -/
theorem mem_keys_dictOfPackets (f : PacketVariant → Bool) (packets : List PacketVariant)
    (k : Int) :
    k ∈ (dictOfPackets f packets).map Prod.fst ↔
      ∃ p, p ∈ packets ∧ f p = true ∧ p.id = k := by
  have hgen : ∀ (ps : List PacketVariant) (acc : List (Int × PacketVariant)),
      k ∈ (ps.foldl (fun m p => if f p then dictUpdate m p.id p else m) acc).map Prod.fst ↔
        k ∈ acc.map Prod.fst ∨ ∃ p, p ∈ ps ∧ f p = true ∧ p.id = k := by
    intro ps
    induction ps with
    | nil => simp
    | cons hd tl ih =>
      intro acc
      simp only [List.foldl_cons]
      by_cases hf : f hd
      · rw [if_pos hf, ih, mem_keys_dictUpdate]
        constructor
        · rintro ((h | h) | ⟨p, hp, hfp, hid⟩)
          · exact Or.inl h
          · exact Or.inr ⟨hd, List.mem_cons_self _ _, hf, h.symm⟩
          · exact Or.inr ⟨p, List.mem_cons_of_mem _ hp, hfp, hid⟩
        · rintro (h | ⟨p, hp, hfp, hid⟩)
          · exact Or.inl (Or.inl h)
          · rcases List.mem_cons.mp hp with heq | hmem
            · exact Or.inl (Or.inr (heq ▸ hid.symm))
            · exact Or.inr ⟨p, hmem, hfp, hid⟩
      · rw [if_neg hf, ih]
        constructor
        · rintro (h | ⟨p, hp, hfp, hid⟩)
          · exact Or.inl h
          · exact Or.inr ⟨p, List.mem_cons_of_mem _ hp, hfp, hid⟩
        · rintro (h | ⟨p, hp, hfp, hid⟩)
          · exact Or.inl h
          · rcases List.mem_cons.mp hp with heq | hmem
            · exact absurd (heq ▸ hfp) (by simpa using hf)
            · exact Or.inr ⟨p, hmem, hfp, hid⟩
  exact (hgen packets []).trans (by simp)

/-- Looking up the key just assigned. -/
theorem lookup_dictUpdate_self (m : List (Int × PacketVariant)) (k : Int) (v : PacketVariant) :
    List.lookup k (dictUpdate m k v) = some v := by
  induction m with
  | nil => simp [dictUpdate]
  | cons hd tl ih =>
    obtain ⟨khd, vhd⟩ := hd
    by_cases hk : khd = k
    · rw [dictUpdate_cons_self khd vhd tl k v hk]
      subst hk
      simp
    · rw [dictUpdate_cons_ne khd vhd tl k v hk]
      have hbeq : (k == khd) = false := by
        simp
        exact fun h => hk h.symm
      rw [List.lookup_cons, hbeq]
      exact ih

/-- Looking up a different key after an assignment. -/
theorem lookup_dictUpdate_ne (m : List (Int × PacketVariant)) (k : Int) (v : PacketVariant)
    (k1 : Int) (h : k1 ≠ k) :
    List.lookup k1 (dictUpdate m k v) = List.lookup k1 m := by
  induction m with
  | nil =>
    have hbeq : (k1 == k) = false := by simpa using h
    simp only [dictUpdate, List.lookup_cons, hbeq, List.lookup_nil]
  | cons hd tl ih =>
    obtain ⟨khd, vhd⟩ := hd
    by_cases hk : khd = k
    · rw [dictUpdate_cons_self khd vhd tl k v hk]
      subst hk
      have hbeq : (k1 == khd) = false := by simpa using h
      rw [List.lookup_cons, List.lookup_cons, hbeq]
    · rw [dictUpdate_cons_ne khd vhd tl k v hk]
      by_cases hk1 : k1 = khd
      · subst hk1
        simp
      · have hbeq : (k1 == khd) = false := by simpa using hk1
        rw [List.lookup_cons, List.lookup_cons, hbeq, ih]

/-- The comprehension dict maps a key to the LAST filtered list entry
with that id (later entries overwrite earlier ones): lookup equals
`find?` on the reversed list. -/
theorem lookup_dictOfPackets (f : PacketVariant → Bool) (packets : List PacketVariant)
    (k : Int) :
    List.lookup k (dictOfPackets f packets) =
      packets.reverse.find? (fun p => f p && p.id == k) := by
  have hfoldr : ∀ (l : List PacketVariant) (acc : List (Int × PacketVariant)),
      List.lookup k (l.foldr (fun p m => if f p then dictUpdate m p.id p else m) acc) =
        match l.find? (fun p => f p && p.id == k) with
        | some p => some p
        | none => List.lookup k acc := by
    intro l
    induction l with
    | nil => intro acc; simp
    | cons hd tl ih =>
      intro acc
      simp only [List.foldr_cons, List.find?]
      by_cases hf : f hd
      · by_cases hid : hd.id = k
        · have : (f hd && hd.id == k) = true := by simp [hf, hid]
          rw [this, if_pos hf, hid, lookup_dictUpdate_self]
        · have : (f hd && hd.id == k) = false := by simp [hf, hid]
          rw [this, if_pos hf, lookup_dictUpdate_ne _ _ _ _ (fun h => hid h.symm)]
          exact ih acc
      · have : (f hd && hd.id == k) = false := by simp [hf]
        rw [this, if_neg hf]
        exact ih acc
  have hswap : dictOfPackets f packets =
      packets.reverse.foldr (fun p m => if f p then dictUpdate m p.id p else m) [] := by
    unfold dictOfPackets
    rw [← List.foldl_reverse, List.reverse_reverse]
  rw [hswap, hfoldr]
  cases packets.reverse.find? (fun p => f p && p.id == k) <;> simp [List.lookup]

/-- C9: with `check_duplicates` set, `from_list` of a list containing
two same-direction variants with one id raises `DuplicatePacketIdError`
carrying that state, a genuinely duplicated id, and its direction
(serverbound checked first); and with no same-direction id collision
it succeeds. -/
theorem from_list_duplicate_detection (state : GameState) (packets : List PacketVariant) :
    ((∃ d pid, 2 ≤ packets.countP (fun p => p.id == pid && directionFlag d p)) →
      ∃ e, StatePacketMap.from_list state packets true = .error e ∧
        e.state = state ∧
        2 ≤ packets.countP (fun p => p.id == e.packetId && directionFlag e.direction p)) ∧
    ((∀ pid : Int, packets.countP (fun p => p.id == pid && p.isServerBound) ≤ 1 ∧
        packets.countP (fun p => p.id == pid && p.isClientBound) ≤ 1) →
      StatePacketMap.from_list state packets true =
        .ok ⟨state, dictOfPackets (·.isServerBound) packets,
             dictOfPackets (·.isClientBound) packets⟩) := by
  constructor
  · rintro ⟨d, pid, hdup⟩
    by_cases hsb : ∃ pid1, 2 ≤ packets.countP (fun p => p.id == pid1 && p.isServerBound)
    · -- some serverbound id is duplicated: the first check fires.
      obtain ⟨pid1, hpid1⟩ := hsb
      have hmem : pid1 ∈ (dictOfPackets (·.isServerBound) packets).map Prod.fst := by
        rw [mem_keys_dictOfPackets]
        have hpos : 0 < packets.countP (fun p => p.id == pid1 && p.isServerBound) := by omega
        obtain ⟨p, hp, hpp⟩ := List.countP_pos_iff.mp hpos
        simp only [Bool.and_eq_true, beq_iff_eq] at hpp
        exact ⟨p, hp, hpp.2, hpp.1⟩
      have hfind : ∃ pid2, ((dictOfPackets (·.isServerBound) packets).map Prod.fst).find?
          (fun pid0 => decide
            (2 ≤ packets.countP (fun p => p.id == pid0 && p.isServerBound))) = some pid2 := by
        have : (((dictOfPackets (·.isServerBound) packets).map Prod.fst).find?
            (fun pid0 => decide
              (2 ≤ packets.countP (fun p => p.id == pid0 && p.isServerBound)))).isSome := by
          rw [List.find?_isSome]
          exact ⟨pid1, hmem, by simpa using hpid1⟩
        exact Option.isSome_iff_exists.mp this
      obtain ⟨pid2, hpid2⟩ := hfind
      have hdup2 : 2 ≤ packets.countP (fun p => p.id == pid2 && p.isServerBound) := by
        have := List.find?_some hpid2
        simpa using this
      refine ⟨⟨"unknown", state, pid2, .serverbound⟩, ?_, rfl, hdup2⟩
      unfold StatePacketMap.from_list
      simp only [if_pos rfl, hpid2]
      exact if_pos trivial
    · -- no serverbound duplicate anywhere: the duplicate is clientbound.
      push_neg at hsb
      have hfind_sb : ((dictOfPackets (·.isServerBound) packets).map Prod.fst).find?
          (fun pid0 => decide
            (2 ≤ packets.countP (fun p => p.id == pid0 && p.isServerBound))) = none := by
        rw [List.find?_eq_none]
        intro x _
        simpa using hsb x
      have hd_cb : d = .clientbound := by
        cases d
        · exact absurd hdup (by simpa [directionFlag] using hsb pid)
        · rfl
      subst hd_cb
      simp only [directionFlag] at hdup
      have hmem : pid ∈ (dictOfPackets (·.isClientBound) packets).map Prod.fst := by
        rw [mem_keys_dictOfPackets]
        have hpos : 0 < packets.countP (fun p => p.id == pid && p.isClientBound) := by omega
        obtain ⟨p, hp, hpp⟩ := List.countP_pos_iff.mp hpos
        simp only [Bool.and_eq_true, beq_iff_eq] at hpp
        exact ⟨p, hp, hpp.2, hpp.1⟩
      have hfind : ∃ pid2, ((dictOfPackets (·.isClientBound) packets).map Prod.fst).find?
          (fun pid0 => decide
            (2 ≤ packets.countP (fun p => p.id == pid0 && p.isClientBound))) = some pid2 := by
        have : (((dictOfPackets (·.isClientBound) packets).map Prod.fst).find?
            (fun pid0 => decide
              (2 ≤ packets.countP (fun p => p.id == pid0 && p.isClientBound)))).isSome := by
          rw [List.find?_isSome]
          exact ⟨pid, hmem, by simpa using hdup⟩
        exact Option.isSome_iff_exists.mp this
      obtain ⟨pid2, hpid2⟩ := hfind
      have hdup2 : 2 ≤ packets.countP (fun p => p.id == pid2 && p.isClientBound) := by
        have := List.find?_some hpid2
        simpa using this
      refine ⟨⟨"unknown", state, pid2, .clientbound⟩, ?_, rfl, hdup2⟩
      unfold StatePacketMap.from_list
      simp only [if_pos rfl, hfind_sb, hpid2]
      exact if_pos trivial
  · intro hnodup
    have hfind_sb : ((dictOfPackets (·.isServerBound) packets).map Prod.fst).find?
        (fun pid0 => decide
          (2 ≤ packets.countP (fun p => p.id == pid0 && p.isServerBound))) = none := by
      rw [List.find?_eq_none]
      intro x _
      have := (hnodup x).1
      simpa using by omega
    have hfind_cb : ((dictOfPackets (·.isClientBound) packets).map Prod.fst).find?
        (fun pid0 => decide
          (2 ≤ packets.countP (fun p => p.id == pid0 && p.isClientBound))) = none := by
      rw [List.find?_eq_none]
      intro x _
      have := (hnodup x).2
      simpa using by omega
    unfold StatePacketMap.from_list
    simp only [if_pos rfl, hfind_sb, hfind_cb]
    exact if_pos trivial

/-- Witness for C9: the duplicate branch on a list with two
serverbound id-1 variants, and the success branch on a list with
distinct ids. -/
theorem from_list_duplicate_detection_witness :
    (∃ e, StatePacketMap.from_list GameState.play
        [⟨1, true, false, 0⟩, ⟨1, true, false, 1⟩] true = .error e ∧
      e.state = GameState.play ∧
      2 ≤ List.countP (fun p => p.id == e.packetId && directionFlag e.direction p)
        [⟨1, true, false, 0⟩, ⟨1, true, false, 1⟩]) ∧
    StatePacketMap.from_list GameState.play [⟨1, true, false, 0⟩, ⟨2, true, false, 2⟩] true =
      .ok ⟨GameState.play,
           dictOfPackets (·.isServerBound) [⟨1, true, false, 0⟩, ⟨2, true, false, 2⟩],
           dictOfPackets (·.isClientBound) [⟨1, true, false, 0⟩, ⟨2, true, false, 2⟩]⟩ :=
  ⟨(from_list_duplicate_detection GameState.play _).1 ⟨.serverbound, 1, by decide⟩,
   (from_list_duplicate_detection GameState.play _).2 (fun pid => by
      constructor <;>
        · simp only [List.countP_cons, List.countP_nil]
          split_ifs <;> simp_all <;> omega)⟩

/-- C10: with `check_duplicates` left at its default `False`,
`from_list` never raises: it returns the two comprehension dicts; a
key maps to the LAST same-direction list entry with that id (earlier
entries are silently shadowed — lookup equals `find?` over the
reversed list); and a variant whose class subclasses both
`ServerBoundPacket` and `ClientBoundPacket` is registered in both
direction dicts. -/
theorem from_list_no_check_last_wins (state : GameState) (packets : List PacketVariant)
    (pid : Int) :
    StatePacketMap.from_list state packets false =
      .ok ⟨state, dictOfPackets (·.isServerBound) packets,
           dictOfPackets (·.isClientBound) packets⟩ ∧
    List.lookup pid (dictOfPackets (·.isServerBound) packets) =
      packets.reverse.find? (fun p => p.isServerBound && p.id == pid) ∧
    List.lookup pid (dictOfPackets (·.isClientBound) packets) =
      packets.reverse.find? (fun p => p.isClientBound && p.id == pid) ∧
    (∀ p, p ∈ packets → p.isServerBound = true → p.isClientBound = true →
      p.id ∈ (dictOfPackets (·.isServerBound) packets).map Prod.fst ∧
      p.id ∈ (dictOfPackets (·.isClientBound) packets).map Prod.fst) := by
  refine ⟨rfl, lookup_dictOfPackets _ _ _, lookup_dictOfPackets _ _ _, ?_⟩
  intro p hp hsb hcb
  exact ⟨(mem_keys_dictOfPackets _ _ _).mpr ⟨p, hp, hsb, rfl⟩,
         (mem_keys_dictOfPackets _ _ _).mpr ⟨p, hp, hcb, rfl⟩⟩

/-- Witness for C10 at a concrete list: of two serverbound variants
with id 1, the later (tag 1, also clientbound) wins the lookup and is
registered in both dicts. -/
theorem from_list_no_check_last_wins_witness :
    List.lookup 1 (dictOfPackets (·.isServerBound)
        [⟨1, true, false, 0⟩, ⟨1, true, true, 1⟩]) =
      ([⟨1, true, false, 0⟩, ⟨1, true, true, 1⟩] : List PacketVariant).reverse.find?
        (fun p => p.isServerBound && p.id == 1) ∧
    ([⟨1, true, false, 0⟩, ⟨1, true, true, 1⟩] : List PacketVariant).reverse.find?
        (fun p => p.isServerBound && p.id == 1) = some ⟨1, true, true, 1⟩ ∧
    (1 : Int) ∈ (dictOfPackets (·.isClientBound)
        [⟨1, true, false, 0⟩, ⟨1, true, true, 1⟩]).map Prod.fst :=
  ⟨(from_list_no_check_last_wins GameState.play _ 1).2.1, by decide,
   ((from_list_no_check_last_wins GameState.play _ 1).2.2.2 ⟨1, true, true, 1⟩
      (by decide) rfl rfl).2⟩

/-- C5 (code bug): `TAG_Byte` does not survive a round trip when its
data is negative.  For `n = TAG_Compound("test", [TAG_Byte("b", -1)])`,
both `unpack(n.pack())` and `unpack(gzip(n.pack()))` yield the
compound with byte data `255`, not `-1`: `pack_data` writes the
signed byte `0xFF` but `unpack_data` reads it back with the unsigned
`buf.read_byte()`.  (The gzip-transparency half of the claim does
hold: the gzipped input decodes to the same tag as the plain one.) -/
theorem nbt_byte_negative_not_roundtrip :
    (packTag mutf8Witness 100 "test" (.vCompound [("b", .vByte (-1))]) =
      some [10, 0, 4, 116, 101, 115, 116, 1, 0, 1, 98, 255, 0]) ∧
    ((packTag mutf8Witness 100 "test" (.vCompound [("b", .vByte (-1))])).bind
        (nbtUnpack gzipWitness mutf8Witness) =
      some ("test", .vCompound [("b", .vByte 255)])) ∧
    ((packTag mutf8Witness 100 "test" (.vCompound [("b", .vByte (-1))])).bind
        (fun bs => nbtUnpack gzipWitness mutf8Witness (gzipWitness.compress bs)) =
      some ("test", .vCompound [("b", .vByte 255)])) ∧
    NVal.vByte 255 ≠ NVal.vByte (-1) := by
  refine ⟨rfl, rfl, rfl, ?_⟩
  intro h
  have : (255 : Int) = -1 := by injection h
  omega

end PyMineNet
